/-
Verification of the TWACore subsystem of OSH-Monitor
(lib/TWACore/src/TWACore.h, TWACore.cpp).

The development shallowly embeds the two calculators of the library:

* `FastTWA` — the streaming estimator (spec: StreamingEstimator): a
  dynamically sized circular buffer of recent sample values with a
  running sum.
* `ExportTWA` — the batch aggregator (spec: BatchAggregator) together
  with its CSV parser (spec: Series Parser).

Modelling conventions:
* `float` values are modelled as exact rationals (`ℚ`); the spec's
  properties are stated "in exact arithmetic, i.e. within
  floating-point tolerance in the implementation".
* `unsigned long` timestamps are modelled as `Nat` together with the
  wrap-around subtraction `usub` at width 32 (the width of
  `unsigned long` on the ESP32/AVR targets of this repository); the
  running total of durations is likewise accumulated modulo `2^32`,
  because a single out-of-order pair already produces a duration close
  to `2^32` and a second one overflows the accumulator.  Pure event
  counters (`gaps`, `dataGaps`, `samplesAnalyzed`) are modelled as
  unbounded `Nat`: overflowing them would need more than `2^32` parsed
  samples, which cannot arise from any input the device can hold.
* The `gmtime`/`strftime` rendering of `exportStartTime`/`exportEndTime`
  (calendar formatting) is outside the scope of every claim and is not
  modelled.
-/
import Mathlib

namespace TWACore

/-! ## FastTWA: the streaming estimator -/

/-- Buffer capacity derived from the sampling interval:
`TWA_WINDOW_SECONDS / interval` (28800 = 8 h), clamped below by 10
(`FastTWA::calculateBufferSize`). -/
def calcBufferSize (si : Nat) : Nat :=
  let bs := 28800 / si
  if bs < 10 then 10 else bs

/-- State of a `FastTWA` instance (the private fields of the class). -/
structure FastTWA where
  samplingInterval : Nat
  bufferSize : Nat
  buffer : List ℚ
  bufferIndex : Nat
  bufferFull : Bool
  sum : ℚ
deriving DecidableEq

/-- Constructor `FastTWA::FastTWA(uint16_t samplingInterval)`. -/
def mkFastTWA (si : Nat) : FastTWA :=
  { samplingInterval := si
    bufferSize := calcBufferSize si
    buffer := []
    bufferIndex := 0
    bufferFull := false
    sum := 0 }

/-- `FastTWA::addSample`: circular-buffer insertion with O(1) running-sum
update. -/
def FastTWA.addSample (s : FastTWA) (value : ℚ) : FastTWA :=
  if s.bufferFull then
    { s with
      sum := s.sum - s.buffer.getD s.bufferIndex 0 + value
      buffer := s.buffer.set s.bufferIndex value
      bufferIndex := (s.bufferIndex + 1) % s.bufferSize }
  else
    let buf := s.buffer ++ [value]
    { s with
      buffer := buf
      sum := s.sum + value
      bufferFull := if s.bufferSize ≤ buf.length then true else s.bufferFull }

/-- The entries `FastTWA::updateSamplingInterval` copies into the
reallocated buffer when the capacity changed.  When the buffer was full it
copies `keepCount` entries starting at the logical oldest position
(`srcIndex = (_bufferIndex + _buffer.size() - keepCount + i) % _buffer.size()`);
when the buffer was not yet full it copies the first `keepCount` entries
(`newBuffer.push_back(_buffer[i])`, `i = 0 .. keepCount-1`). -/
def retainedBuffer (s : FastTWA) (newSize : Nat) : List ℚ :=
  if s.bufferFull = true ∧ s.buffer ≠ [] then
    let keep := min newSize s.buffer.length
    (List.range keep).map fun i =>
      s.buffer.getD ((s.bufferIndex + s.buffer.length - keep + i) % s.buffer.length) 0
  else if s.buffer ≠ [] then
    let keep := min newSize s.buffer.length
    (List.range keep).map fun i => s.buffer.getD i 0
  else []

/-- `FastTWA::updateSamplingInterval`: store the new interval, recompute
the capacity and, when it changed, rebuild the buffer from
`retainedBuffer`, reset the write index, re-derive the full flag from the
new length vs capacity, and recompute the sum over the copied entries. -/
def FastTWA.updateSamplingInterval (s : FastTWA) (newInterval : Nat) : FastTWA :=
  let newSize := calcBufferSize newInterval
  if newSize ≠ s.bufferSize then
    { samplingInterval := newInterval
      bufferSize := newSize
      buffer := retainedBuffer s newSize
      bufferIndex := 0
      bufferFull := decide (newSize ≤ (retainedBuffer s newSize).length)
      sum := (retainedBuffer s newSize).sum }
  else
    { s with samplingInterval := newInterval, bufferSize := newSize }

/-- `FastTWA::getCurrentTWA`: `sum / length`, `0` on an empty buffer. -/
def FastTWA.getCurrentTWA (s : FastTWA) : ℚ :=
  if s.buffer = [] then 0 else s.sum / (s.buffer.length : ℚ)

/-- Feeding a sequence of samples, one `addSample` call per element. -/
def feed (s : FastTWA) (xs : List ℚ) : FastTWA :=
  xs.foldl FastTWA.addSample s

/-- States of a `FastTWA` reachable from a constructor call with a positive
sampling interval by any sequence of `addSample` and
`updateSamplingInterval` calls (intervals positive, as the component
assumes pre-validated configuration). -/
inductive Reachable : FastTWA → Prop where
  | init (si : Nat) (h : 0 < si) : Reachable (mkFastTWA si)
  | step {s : FastTWA} (v : ℚ) : Reachable s → Reachable (s.addSample v)
  | resize {s : FastTWA} (ni : Nat) (h : 0 < ni) :
      Reachable s → Reachable (s.updateSamplingInterval ni)

/-- The internal well-formedness invariant of a `FastTWA` state. -/
def Inv (s : FastTWA) : Prop :=
  s.sum = s.buffer.sum ∧
  (s.bufferFull = true ↔ s.buffer.length = s.bufferSize) ∧
  s.buffer.length ≤ s.bufferSize ∧
  s.bufferIndex < s.bufferSize ∧
  10 ≤ s.bufferSize

lemma calcBufferSize_ge (si : Nat) : 10 ≤ calcBufferSize si := by
  by_cases h : 28800 / si < 10
  · simp [calcBufferSize, h]
  · simp only [calcBufferSize, if_neg h]
    omega

lemma sum_set (l : List ℚ) (n : Nat) (v : ℚ) (h : n < l.length) :
    (l.set n v).sum = l.sum - l.getD n 0 + v := by
  induction l generalizing n with
  | nil => simp at h
  | cons a t ih =>
    cases n with
    | zero => simp [List.set]; ring
    | succ m =>
      simp only [List.set, List.sum_cons, List.getD_cons_succ]
      rw [ih m (by simpa using h)]
      ring

lemma inv_mk (si : Nat) : Inv (mkFastTWA si) := by
  have := calcBufferSize_ge si
  unfold Inv mkFastTWA
  dsimp only
  refine ⟨by simp, ?_, by simp, by omega, this⟩
  simp only [List.length_nil]
  constructor
  · intro h; cases h
  · intro h; omega

lemma inv_addSample {s : FastTWA} (hs : Inv s) (v : ℚ) : Inv (s.addSample v) := by
  obtain ⟨h1, h2, h3, h4, h5⟩ := hs
  unfold FastTWA.addSample
  by_cases hf : s.bufferFull = true
  · have hlen : s.buffer.length = s.bufferSize := h2.mp hf
    have hidx : s.bufferIndex < s.buffer.length := by omega
    simp only [hf, if_true]
    unfold Inv
    dsimp only
    refine ⟨?_, ?_, ?_, ?_, h5⟩
    · simp only [sum_set s.buffer s.bufferIndex v hidx, h1]
    · simp [List.length_set, hlen, hf]
    · simp [List.length_set, hlen]
    · exact Nat.mod_lt _ (by omega)
  · have hf' : s.bufferFull = false := by
      cases hb : s.bufferFull
      · rfl
      · exact absurd hb hf
    have hlen : s.buffer.length ≠ s.bufferSize := fun hc => hf (h2.mpr hc)
    have hlt : s.buffer.length < s.bufferSize := by omega
    simp only [hf', Bool.false_eq_true, if_false]
    unfold Inv
    dsimp only
    refine ⟨?_, ?_, ?_, h4, h5⟩
    · simp [h1]
    · by_cases hle : s.bufferSize ≤ (s.buffer ++ [v]).length
      · rw [if_pos hle]
        simp only [List.length_append, List.length_cons, List.length_nil] at hle ⊢
        constructor
        · intro _; omega
        · intro _; trivial
      · rw [if_neg hle]
        simp only [List.length_append, List.length_cons, List.length_nil] at hle ⊢
        simp only [Bool.false_eq_true, false_iff]
        omega
    · simp only [List.length_append, List.length_cons, List.length_nil]
      omega

lemma retainedBuffer_length_le (s : FastTWA) (n : Nat) :
    (retainedBuffer s n).length ≤ n := by
  unfold retainedBuffer
  split
  · simp
  · split
    · simp
    · simp

lemma inv_update {s : FastTWA} (hs : Inv s) (ni : Nat) :
    Inv (s.updateSamplingInterval ni) := by
  obtain ⟨h1, h2, h3, h4, h5⟩ := hs
  have hge := calcBufferSize_ge ni
  unfold FastTWA.updateSamplingInterval
  by_cases hne : calcBufferSize ni ≠ s.bufferSize
  · simp only [if_pos hne]
    have hlen := retainedBuffer_length_le s (calcBufferSize ni)
    unfold Inv
    dsimp only
    refine ⟨rfl, ?_, hlen, by omega, hge⟩
    simp only [decide_eq_true_eq]
    omega
  · simp only [if_neg hne]
    push_neg at hne
    unfold Inv
    dsimp only
    rw [hne]
    exact ⟨h1, h2, h3, h4, h5⟩

lemma inv_of_reachable {s : FastTWA} (h : Reachable s) : Inv s := by
  induction h with
  | init si hp => exact inv_mk si
  | step v _ ih => exact inv_addSample ih v
  | resize ni hp _ ih => exact inv_update ih ni

/-- C3: in every `FastTWA` state reachable from construction by any
sequence of `addSample` and `updateSamplingInterval` calls, the running
sum field equals the exact sum of the entries currently in the buffer,
and the full flag is true iff the buffer length equals the current
capacity. -/
theorem fastTWA_invariant {s : FastTWA} (h : Reachable s) :
    s.sum = s.buffer.sum ∧
    (s.bufferFull = true ↔ s.buffer.length = s.bufferSize) := by
  have := inv_of_reachable h
  exact ⟨this.1, this.2.1⟩

/-- C3 witness: the invariant instantiated at the concrete reachable state
obtained by constructing with interval 60 and adding one sample. -/
theorem fastTWA_invariant_witness :
    ((mkFastTWA 60).addSample 5).sum = ((mkFastTWA 60).addSample 5).buffer.sum ∧
    (((mkFastTWA 60).addSample 5).bufferFull = true ↔
      ((mkFastTWA 60).addSample 5).buffer.length = ((mkFastTWA 60).addSample 5).bufferSize) :=
  fastTWA_invariant (Reachable.step 5 (Reachable.init 60 (by decide)))

/-- Twenty pairwise-identifiable sample values used to exhibit the resize
behaviour on a buffer that is not yet full. -/
def vals20 : List ℚ :=
  [100, 101, 102, 103, 104, 105, 106, 107, 108, 109,
   110, 111, 112, 113, 114, 115, 116, 117, 118, 119]

/-- C2 (exhibit of the divergence): construct with interval 60
(capacity 480), add the 20 samples `100 .. 119` (buffer not yet full),
then shrink the capacity to 10 via `updateSamplingInterval 2880`.  The
retained buffer is the OLDEST ten entries `100 .. 109`, not the most
recent ten `110 .. 119` that the claim (and the code's own comment
"Resize buffer, keeping most recent data") requires. -/
theorem resize_notFull_keepsOldest :
    ((feed (mkFastTWA 60) vals20).updateSamplingInterval 2880).buffer = vals20.take 10 ∧
    ((feed (mkFastTWA 60) vals20).updateSamplingInterval 2880).buffer ≠ vals20.drop 10 := by
  constructor
  · rfl
  · intro h
    have h0 := congrArg (fun l => l.getD 0 0) h
    dsimp only at h0
    have h1 : ((feed (mkFastTWA 60) vals20).updateSamplingInterval 2880).buffer.getD 0 0
        = (100 : ℚ) := rfl
    have h2 : (vals20.drop 10).getD 0 0 = (110 : ℚ) := rfl
    rw [h1, h2] at h0
    norm_num at h0

/-! ### Rotation view of the full circular buffer (for C4) -/

/-- Left rotation of a list. -/
def rotL (l : List ℚ) (n : Nat) : List ℚ := l.drop n ++ l.take n

lemma rotL_length (l : List ℚ) (n : Nat) : (rotL l n).length = l.length := by
  simp [rotL]
  omega

lemma rotL_sum (l : List ℚ) (n : Nat) : (rotL l n).sum = l.sum := by
  unfold rotL
  rw [List.sum_append, add_comm, ← List.sum_append, List.take_append_drop]

lemma rotL_zero (l : List ℚ) : rotL l 0 = l := by simp [rotL]

/-- On a list of length `c`, rotating by `(c - i) % c` is rotating by
`c - i` (at `i = 0` both amounts leave the list unchanged). -/
lemma rotL_mod (l : List ℚ) (c i : Nat) (hl : l.length = c) (hi : i < c) :
    rotL l ((c - i) % c) = l.drop (c - i) ++ l.take (c - i) := by
  by_cases h0 : i = 0
  · subst h0
    simp only [Nat.sub_zero, Nat.mod_self]
    rw [rotL_zero]
    rw [← hl]
    simp
  · have : (c - i) % c = c - i := Nat.mod_eq_of_lt (by omega)
    rw [this, rotL]

/-- The element about to be overwritten at write index `i` of a full
rotated buffer is the oldest element of the chronological window. -/
lemma rotL_getD_oldest (l : List ℚ) (c i : Nat) (hl : l.length = c) (hi : i < c) :
    (rotL l ((c - i) % c)).getD i 0 = l.getD 0 0 := by
  rw [rotL_mod l c i hl hi]
  cases l with
  | nil => simp at hl; omega
  | cons a t =>
    have hc : c - i = (c - i - 1) + 1 := by omega
    rw [hc]
    simp only [List.drop_succ_cons, List.take_succ_cons]
    have hlen : (t.drop (c - i - 1)).length = i := by
      simp at hl ⊢
      omega
    rw [List.getD_append_right _ _ _ _ (le_of_eq hlen)]
    simp [hlen]

/-- Overwriting the oldest element of a full rotated buffer advances the
chronological window by one: the buffer of window `l` rotated for write
index `i`, after `set i v`, is the buffer of window `l.tail ++ [v]`
rotated for write index `(i+1) % c`. -/
lemma rotL_set_step (l : List ℚ) (c i : Nat) (v : ℚ) (hl : l.length = c) (hi : i < c) :
    (rotL l ((c - i) % c)).set i v
      = rotL (l.tail ++ [v]) ((c - (i + 1) % c) % c) := by
  have hc0 : 0 < c := by omega
  have hr' : (c - (i + 1) % c) % c = c - i - 1 := by
    by_cases hlast : i + 1 = c
    · rw [hlast]
      simp
      omega
    · have h1 : (i + 1) % c = i + 1 := Nat.mod_eq_of_lt (by omega)
      rw [h1]
      exact Nat.mod_eq_of_lt (by omega)
  rw [rotL_mod l c i hl hi, hr']
  cases l with
  | nil => simp at hl; omega
  | cons a t =>
    have ht : t.length = c - 1 := by simp at hl; omega
    have hsub : c - i = (c - i - 1) + 1 := by omega
    rw [hsub]
    simp only [List.drop_succ_cons, List.take_succ_cons, List.tail_cons]
    have hlen : (t.drop (c - i - 1)).length = i := by simp; omega
    rw [List.set_append_right _ _ (le_of_eq hlen)]
    rw [hlen, Nat.sub_self, List.set_cons_zero]
    show t.drop (c - i - 1) ++ v :: t.take (c - i - 1) = rotL (t ++ [v]) (c - i - 1)
    unfold rotL
    rw [List.drop_append_eq_append_drop, List.take_append_eq_append_take]
    have ht' : c - i - 1 - t.length = 0 := by omega
    rw [ht']
    simp

/-- Characterisation of `feed` while the buffer is still filling:
the buffer is exactly the fed prefix, the write index is 0, and the full
flag is set iff the capacity has just been reached. -/
lemma feed_fill (si : Nat) (xs : List ℚ) :
    xs.length ≤ calcBufferSize si →
    feed (mkFastTWA si) xs =
      { samplingInterval := si
        bufferSize := calcBufferSize si
        buffer := xs
        bufferIndex := 0
        bufferFull := decide (calcBufferSize si ≤ xs.length)
        sum := xs.sum } := by
  induction xs using List.reverseRecOn with
  | nil =>
    intro _
    have h10 := calcBufferSize_ge si
    have hne : calcBufferSize si ≠ 0 := by omega
    simp [feed, mkFastTWA, Nat.le_zero, hne]
  | append_singleton xs v ih =>
    intro h
    have hxs : xs.length ≤ calcBufferSize si := by simp at h; omega
    have hstep : feed (mkFastTWA si) (xs ++ [v]) = (feed (mkFastTWA si) xs).addSample v := by
      simp [feed]
    rw [hstep, ih hxs]
    unfold FastTWA.addSample
    dsimp only
    have hfull : ¬ (decide (calcBufferSize si ≤ xs.length) = true) := by
      simp at h ⊢
      omega
    rw [if_neg hfull]
    have hflag : (if calcBufferSize si ≤ (xs ++ [v]).length then true
        else decide (calcBufferSize si ≤ xs.length))
        = decide (calcBufferSize si ≤ (xs ++ [v]).length) := by
      by_cases hle : calcBufferSize si ≤ (xs ++ [v]).length
      · rw [if_pos hle]
        have hle' : calcBufferSize si ≤ xs.length + 1 := by simpa using hle
        simp [hle']
      · rw [if_neg hle]
        simp at hle ⊢
        omega
    rw [hflag]
    have hsum : xs.sum + v = (xs ++ [v]).sum := by simp
    rw [hsum]

/-- Characterisation of `feed` once at least `capacity` samples have been
fed (with no interval change): the buffer holds exactly the most recent
`capacity` values, rotated so that the write index `n % capacity` points
at the oldest of them, and the sum field is the sum of that window. -/
lemma feed_full (si : Nat) (xs : List ℚ) :
    calcBufferSize si ≤ xs.length →
    feed (mkFastTWA si) xs =
      { samplingInterval := si
        bufferSize := calcBufferSize si
        buffer := rotL (xs.drop (xs.length - calcBufferSize si))
          ((calcBufferSize si - xs.length % calcBufferSize si) % calcBufferSize si)
        bufferIndex := xs.length % calcBufferSize si
        bufferFull := true
        sum := (rotL (xs.drop (xs.length - calcBufferSize si))
          ((calcBufferSize si - xs.length % calcBufferSize si) % calcBufferSize si)).sum } := by
  set c := calcBufferSize si with hc
  have h10 : 10 ≤ c := calcBufferSize_ge si
  induction xs using List.reverseRecOn with
  | nil => intro h; simp at h; omega
  | append_singleton xs v ih =>
    intro h
    have hstep : feed (mkFastTWA si) (xs ++ [v]) = (feed (mkFastTWA si) xs).addSample v := by
      simp [feed]
    have hlen1 : (xs ++ [v]).length = xs.length + 1 := by simp
    by_cases hfl : xs.length < c
    · -- the sample that completes the first window
      have hn : xs.length + 1 = c := by simp at h; omega
      rw [hstep, feed_fill si xs (by omega)]
      unfold FastTWA.addSample
      dsimp only
      have hfull : ¬ (decide (c ≤ xs.length) = true) := by simp; omega
      rw [if_neg hfull]
      rw [hlen1, hn]
      simp only [Nat.mod_self, Nat.sub_zero, Nat.sub_self, List.drop_zero]
      rw [rotL_zero]
      have hflag : (if c ≤ c then true else decide (c ≤ xs.length)) = true := by simp
      rw [hflag]
      have hsum : xs.sum + v = (xs ++ [v]).sum := by simp
      rw [hsum]
    · -- overwrite step inside the full regime
      have hcx : c ≤ xs.length := by omega
      rw [hstep, ih hcx]
      set n := xs.length with hn
      set W := xs.drop (n - c) with hW
      have hWlen : W.length = c := by rw [hW]; simp; omega
      have hWne : W ≠ [] := by
        intro hnil
        rw [hnil] at hWlen
        simp at hWlen
        omega
      have hi : n % c < c := Nat.mod_lt _ (by omega)
      unfold FastTWA.addSample
      dsimp only
      rw [if_pos rfl]
      have h1c : 1 % c = 1 := Nat.mod_eq_of_lt (by omega)
      have hidx : (n % c + 1) % c = (n + 1) % c := by
        conv_rhs => rw [Nat.add_mod, h1c]
      have hW' : (xs ++ [v]).drop ((n + 1) - c) = W.tail ++ [v] := by
        rw [hW, List.drop_append_eq_append_drop]
        have h2 : (n + 1) - c - xs.length = 0 := by omega
        rw [h2]
        simp only [List.drop_zero]
        congr 1
        have htl : (xs.drop (n - c)).tail = xs.drop ((n - c) + 1) := by
          rw [← List.drop_one, List.drop_drop]
        rw [htl]
        congr 1
        omega
      rw [rotL_set_step W c (n % c) v hWlen hi]
      rw [rotL_getD_oldest W c (n % c) hWlen hi]
      rw [hlen1, hW', hidx]
      congr 1
      rw [rotL_sum, rotL_sum]
      cases hWc : W with
      | nil => exact absurd hWc hWne
      | cons a t =>
        simp only [List.tail_cons, List.sum_append, List.sum_cons, List.sum_nil,
          List.getD_cons_zero]
        ring

/-- C4: for every `FastTWA` constructed with a positive sampling interval
and fed at least `capacity` samples (no interval change), where
`capacity = max(10, 28800 / samplingInterval)`, `getCurrentTWA` returns
the exact arithmetic mean of the last `capacity` values fed. -/
theorem streaming_TWA_is_mean_of_last_capacity (si : Nat) (xs : List ℚ)
    (_hsi : 0 < si) (h : calcBufferSize si ≤ xs.length) :
    calcBufferSize si = max 10 (28800 / si) ∧
    (feed (mkFastTWA si) xs).getCurrentTWA =
      (xs.drop (xs.length - calcBufferSize si)).sum / (calcBufferSize si : ℚ) := by
  constructor
  · unfold calcBufferSize
    by_cases hlt : 28800 / si < 10
    · rw [if_pos hlt]
      omega
    · rw [if_neg hlt]
      omega
  · rw [feed_full si xs h]
    unfold FastTWA.getCurrentTWA
    have h10 := calcBufferSize_ge si
    have hlen : (rotL (xs.drop (xs.length - calcBufferSize si))
        ((calcBufferSize si - xs.length % calcBufferSize si) % calcBufferSize si)).length
        = calcBufferSize si := by
      rw [rotL_length]
      simp
      omega
    have hne : rotL (xs.drop (xs.length - calcBufferSize si))
        ((calcBufferSize si - xs.length % calcBufferSize si) % calcBufferSize si) ≠ [] := by
      intro hnil
      rw [hnil] at hlen
      simp at hlen
      omega
    dsimp only
    rw [if_neg hne, rotL_sum, hlen]

/-- Twelve sample values used to instantiate C4 at interval 2880
(capacity exactly 10). -/
def twelveVals : List ℚ := [3, 1, 4, 1, 5, 9, 2, 6, 5, 3, 5, 8]

/-- C4 witness: the theorem applied at interval 2880 (capacity 10) and a
concrete list of 12 samples. -/
theorem streaming_TWA_is_mean_of_last_capacity_witness :
    calcBufferSize 2880 = max 10 (28800 / 2880) ∧
    (feed (mkFastTWA 2880) twelveVals).getCurrentTWA =
      (twelveVals.drop (twelveVals.length - calcBufferSize 2880)).sum / (calcBufferSize 2880 : ℚ) :=
  streaming_TWA_is_mean_of_last_capacity 2880 twelveVals (by decide) (by decide)

/-! ## ExportTWA: the batch aggregator -/

/-- Modulus of `unsigned long` arithmetic: 32 bits on the ESP32/AVR
targets of this repository. -/
def W32 : Nat := 4294967296

/-- Wrap-around (unsigned) subtraction `a - b` at width 32, the value
computed by `next.timestamp - current.timestamp` on `unsigned long`. -/
def usub (a b : Nat) : Nat := (a % W32 + (W32 - b % W32)) % W32

lemma usub_of_le {a b : Nat} (hba : b ≤ a) (ha : a < W32) : usub a b = a - b := by
  have hb : b < W32 := by omega
  unfold usub
  rw [Nat.mod_eq_of_lt ha, Nat.mod_eq_of_lt hb]
  have h1 : a + (W32 - b) = (a - b) + W32 := by omega
  rw [h1, Nat.add_mod_right, Nat.mod_eq_of_lt (by omega)]

lemma usub_eq_int_emod {a b : Nat} (_h1 : a < W32) (_h2 : b < W32) :
    usub a b = (((a : Int) - (b : Int)) % (W32 : Int)).toNat := by
  simp only [usub, W32] at *
  omega

/-- A timestamped multi-parameter sample (`MeasurementSample` in the
source): `values` is indexed by parameter position. -/
structure MeasurementSample where
  timestamp : Nat
  values : List ℚ
deriving DecidableEq

/-- Accumulator of the pair loop in
`ExportTWA::calculateWeightedAverage`: the float `weightedSum`, the
`unsigned long` running `totalTime` and the gap counter. -/
structure WAAcc where
  weightedSum : ℚ
  totalTime : Nat
  gaps : Nat
deriving DecidableEq

/-- One iteration of the pair loop of
`ExportTWA::calculateWeightedAverage` on the adjacent pair
`(current, next)`: skip when `current.timestamp` is outside
`[periodStart, periodEnd)`; otherwise compute the (unsigned, wrapping)
duration, count a gap when it exceeds the threshold, and — when
`paramIndex` is within bounds for this sample — accumulate
`value * duration` and the duration itself (`totalTime` wraps at 2^32). -/
def waStep (gapThreshold p ps pe : Nat) (acc : WAAcc)
    (cur nxt : MeasurementSample) : WAAcc :=
  if cur.timestamp < ps ∨ pe ≤ cur.timestamp then acc
  else
    let duration := usub nxt.timestamp cur.timestamp
    let acc1 := if gapThreshold < duration then { acc with gaps := acc.gaps + 1 } else acc
    if p < cur.values.length then
      { acc1 with
        weightedSum := acc1.weightedSum + cur.values.getD p 0 * (duration : ℚ)
        totalTime := (acc1.totalTime + duration) % W32 }
    else acc1

/-- The pair loop `for i in 0 .. samples.size()-2` of
`ExportTWA::calculateWeightedAverage`, iterating `waStep` over adjacent
pairs in file order. -/
def waLoop (gapThreshold p ps pe : Nat) : WAAcc → List MeasurementSample → WAAcc
  | acc, cur :: nxt :: rest =>
      waLoop gapThreshold p ps pe (waStep gapThreshold p ps pe acc cur nxt) (nxt :: rest)
  | acc, _ => acc

/-- Result of `ExportTWA::calculateWeightedAverage`: the returned float
and the gap count written through the output parameter. -/
structure WAResult where
  twa : ℚ
  gaps : Nat
deriving DecidableEq

/-- `ExportTWA::calculateWeightedAverage`: returns 0 on an empty series
or an out-of-range parameter index (leaving the caller's gap counter at
0); otherwise runs the pair loop and divides `weightedSum` by
`totalTime` when the latter is positive, else returns 0. -/
def calculateWeightedAverage (numParams gapThreshold : Nat)
    (samples : List MeasurementSample) (p ps pe : Nat) : WAResult :=
  if samples = [] ∨ numParams ≤ p then { twa := 0, gaps := 0 }
  else
    let acc := waLoop gapThreshold p ps pe { weightedSum := 0, totalTime := 0, gaps := 0 } samples
    { twa := if 0 < acc.totalTime then acc.weightedSum / (acc.totalTime : ℚ) else 0
      gaps := acc.gaps }

/-! ### The claim-worded (exact-arithmetic) description of the TWA -/

/-- Adjacent pairs `(current, next)` of a series, in file order. -/
def adjPairs : List MeasurementSample → List (MeasurementSample × MeasurementSample)
  | cur :: nxt :: rest => (cur, nxt) :: adjPairs (nxt :: rest)
  | _ => []

/-- The adjacent pairs whose `current.timestamp` lies inside
`[periodStart, periodEnd)`. -/
def includedPairs (ps pe : Nat) (samples : List MeasurementSample) :
    List (MeasurementSample × MeasurementSample) :=
  (adjPairs samples).filter fun cn =>
    decide (ps ≤ cn.1.timestamp) && decide (cn.1.timestamp < pe)

/-- Spec-worded total duration: the sum over included pairs of
`next.timestamp - current.timestamp` (exact arithmetic). -/
def specTotalDuration (ps pe : Nat) (samples : List MeasurementSample) : Nat :=
  ((includedPairs ps pe samples).map fun cn =>
    cn.2.timestamp - cn.1.timestamp).sum

/-- Spec-worded weighted sum: the sum over included pairs of
`current.values[p] * (next.timestamp - current.timestamp)`. -/
def specWeightedSum (p ps pe : Nat) (samples : List MeasurementSample) : ℚ :=
  ((includedPairs ps pe samples).map fun cn =>
    cn.1.values.getD p 0 * ((cn.2.timestamp - cn.1.timestamp : Nat) : ℚ)).sum

/-- The TWA exactly as the claim words it: `weightedSum / totalDuration`
over the included adjacent pairs, `0` when `totalDuration` is zero. -/
def twaSpec (samples : List MeasurementSample) (p ps pe : Nat) : ℚ :=
  if specTotalDuration ps pe samples = 0 then 0
  else specWeightedSum p ps pe samples / (specTotalDuration ps pe samples : ℚ)

lemma adjPairs_nil : adjPairs [] = [] := rfl

lemma adjPairs_single (a : MeasurementSample) : adjPairs [a] = [] := rfl

lemma specT_nil (ps pe : Nat) : specTotalDuration ps pe [] = 0 := rfl

lemma specT_single (ps pe : Nat) (a : MeasurementSample) :
    specTotalDuration ps pe [a] = 0 := rfl

lemma specW_nil (p ps pe : Nat) : specWeightedSum p ps pe [] = 0 := rfl

lemma specW_single (p ps pe : Nat) (a : MeasurementSample) :
    specWeightedSum p ps pe [a] = 0 := rfl

lemma includedPairs_cons2_in {ps pe : Nat} {a : MeasurementSample}
    (hin : ps ≤ a.timestamp ∧ a.timestamp < pe) (b : MeasurementSample)
    (l : List MeasurementSample) :
    includedPairs ps pe (a :: b :: l) = (a, b) :: includedPairs ps pe (b :: l) := by
  unfold includedPairs
  show List.filter _ ((a, b) :: adjPairs (b :: l)) = _
  rw [List.filter_cons]
  simp [hin.1, hin.2]

lemma includedPairs_cons2_skip {ps pe : Nat} {a : MeasurementSample}
    (hout : ¬ (ps ≤ a.timestamp ∧ a.timestamp < pe)) (b : MeasurementSample)
    (l : List MeasurementSample) :
    includedPairs ps pe (a :: b :: l) = includedPairs ps pe (b :: l) := by
  unfold includedPairs
  show List.filter _ ((a, b) :: adjPairs (b :: l)) = _
  rw [List.filter_cons]
  have : (decide (ps ≤ a.timestamp) && decide (a.timestamp < pe)) = false := by
    rcases Decidable.not_and_iff_or_not.mp hout with h | h <;> simp [h]
  rw [this]
  simp

lemma specT_cons2_in {ps pe : Nat} {a : MeasurementSample}
    (hin : ps ≤ a.timestamp ∧ a.timestamp < pe) (b : MeasurementSample)
    (l : List MeasurementSample) :
    specTotalDuration ps pe (a :: b :: l)
      = (b.timestamp - a.timestamp) + specTotalDuration ps pe (b :: l) := by
  unfold specTotalDuration
  rw [includedPairs_cons2_in hin]
  simp

lemma specT_cons2_skip {ps pe : Nat} {a : MeasurementSample}
    (hout : ¬ (ps ≤ a.timestamp ∧ a.timestamp < pe)) (b : MeasurementSample)
    (l : List MeasurementSample) :
    specTotalDuration ps pe (a :: b :: l) = specTotalDuration ps pe (b :: l) := by
  unfold specTotalDuration
  rw [includedPairs_cons2_skip hout]

lemma specW_cons2_in {p ps pe : Nat} {a : MeasurementSample}
    (hin : ps ≤ a.timestamp ∧ a.timestamp < pe) (b : MeasurementSample)
    (l : List MeasurementSample) :
    specWeightedSum p ps pe (a :: b :: l)
      = a.values.getD p 0 * ((b.timestamp - a.timestamp : Nat) : ℚ)
        + specWeightedSum p ps pe (b :: l) := by
  unfold specWeightedSum
  rw [includedPairs_cons2_in hin]
  simp

lemma specW_cons2_skip {p ps pe : Nat} {a : MeasurementSample}
    (hout : ¬ (ps ≤ a.timestamp ∧ a.timestamp < pe)) (b : MeasurementSample)
    (l : List MeasurementSample) :
    specWeightedSum p ps pe (a :: b :: l) = specWeightedSum p ps pe (b :: l) := by
  unfold specWeightedSum
  rw [includedPairs_cons2_skip hout]

/-- On a chronologically ordered, 32-bit-bounded series the wrapped
accumulator of the pair loop computes exactly the spec-worded weighted
sum and total duration. -/
lemma waLoop_exact (gt p ps pe : Nat) :
    ∀ (rest : List MeasurementSample) (cur : MeasurementSample) (w : ℚ) (t g : Nat),
      List.Chain' (fun a b => a.timestamp ≤ b.timestamp) (cur :: rest) →
      (∀ s ∈ cur :: rest, s.timestamp < W32) →
      (∀ s ∈ cur :: rest, p < s.values.length) →
      t ≤ cur.timestamp →
      (waLoop gt p ps pe ⟨w, t, g⟩ (cur :: rest)).weightedSum
          = w + specWeightedSum p ps pe (cur :: rest) ∧
      (waLoop gt p ps pe ⟨w, t, g⟩ (cur :: rest)).totalTime
          = t + specTotalDuration ps pe (cur :: rest) := by
  intro rest
  induction rest with
  | nil =>
    intro cur w t g _ _ _ _
    constructor
    · show w = w + specWeightedSum p ps pe [cur]
      rw [specW_single]
      ring
    · show t = t + specTotalDuration ps pe [cur]
      rw [specT_single]
      omega
  | cons nxt rest ih =>
    intro cur w t g hchain hbound hv ht
    have hcn : cur.timestamp ≤ nxt.timestamp := (List.chain'_cons.mp hchain).1
    have hchain' : List.Chain' (fun a b => a.timestamp ≤ b.timestamp) (nxt :: rest) :=
      (List.chain'_cons.mp hchain).2
    have hbound' : ∀ s ∈ nxt :: rest, s.timestamp < W32 := fun s hs =>
      hbound s (List.mem_cons_of_mem cur hs)
    have hv' : ∀ s ∈ nxt :: rest, p < s.values.length := fun s hs =>
      hv s (List.mem_cons_of_mem cur hs)
    have hstep : waLoop gt p ps pe ⟨w, t, g⟩ (cur :: nxt :: rest)
        = waLoop gt p ps pe (waStep gt p ps pe ⟨w, t, g⟩ cur nxt) (nxt :: rest) := rfl
    rw [hstep]
    by_cases hskip : cur.timestamp < ps ∨ pe ≤ cur.timestamp
    · have hout : ¬ (ps ≤ cur.timestamp ∧ cur.timestamp < pe) := by omega
      have hacc : waStep gt p ps pe ⟨w, t, g⟩ cur nxt = ⟨w, t, g⟩ := by
        unfold waStep
        rw [if_pos hskip]
      rw [hacc]
      have := ih nxt w t g hchain' hbound' hv' (le_trans ht hcn)
      rw [specW_cons2_skip hout, specT_cons2_skip hout]
      exact this
    · have hin : ps ≤ cur.timestamp ∧ cur.timestamp < pe := by omega
      have hd : usub nxt.timestamp cur.timestamp = nxt.timestamp - cur.timestamp :=
        usub_of_le hcn (hbound nxt (by simp))
      have hpv : p < cur.values.length := hv cur (by simp)
      have htd : t + (nxt.timestamp - cur.timestamp) ≤ nxt.timestamp := by omega
      have hmod : (t + (nxt.timestamp - cur.timestamp)) % W32
          = t + (nxt.timestamp - cur.timestamp) :=
        Nat.mod_eq_of_lt (lt_of_le_of_lt htd (hbound nxt (by simp)))
      have hacc : waStep gt p ps pe ⟨w, t, g⟩ cur nxt
          = ⟨w + cur.values.getD p 0 * ((nxt.timestamp - cur.timestamp : Nat) : ℚ),
             t + (nxt.timestamp - cur.timestamp),
             g + if gt < nxt.timestamp - cur.timestamp then 1 else 0⟩ := by
        unfold waStep
        rw [if_neg hskip]
        dsimp only
        rw [hd]
        by_cases hg : gt < nxt.timestamp - cur.timestamp
        · rw [if_pos hg, if_pos hg, if_pos hpv]
          dsimp only
          rw [hmod]
        · rw [if_neg hg, if_neg hg, if_pos hpv]
          dsimp only
          rw [hmod]
          simp
      rw [hacc]
      have := ih nxt (w + cur.values.getD p 0 * ((nxt.timestamp - cur.timestamp : Nat) : ℚ))
        (t + (nxt.timestamp - cur.timestamp))
        (g + if gt < nxt.timestamp - cur.timestamp then 1 else 0)
        hchain' hbound' hv' htd
      rw [specW_cons2_in hin, specT_cons2_in hin]
      constructor
      · rw [this.1]
        ring
      · rw [this.2]
        omega

/-- C1: for every sample series with nondecreasing 32-bit timestamps and
full value rows, and every parameter index `p < numParams`, the TWA
computed by `calculateWeightedAverage` equals the spec-worded
`weightedSum / totalDuration` over adjacent pairs whose
`current.timestamp` lies in `[periodStart, periodEnd)` (0 when
`totalDuration` is 0); the final sample contributes no forward weight. -/
theorem batch_TWA_matches_spec (numParams gt : Nat)
    (samples : List MeasurementSample) (p ps pe : Nat)
    (hp : p < numParams)
    (hmono : List.Chain' (fun a b => a.timestamp ≤ b.timestamp) samples)
    (hbound : ∀ s ∈ samples, s.timestamp < W32)
    (hv : ∀ s ∈ samples, p < s.values.length) :
    (calculateWeightedAverage numParams gt samples p ps pe).twa
      = twaSpec samples p ps pe := by
  cases samples with
  | nil =>
    unfold calculateWeightedAverage twaSpec
    rw [if_pos (Or.inl rfl), specT_nil]
    simp
  | cons cur rest =>
    unfold calculateWeightedAverage
    have hguard : ¬ (cur :: rest = [] ∨ numParams ≤ p) := by
      push_neg
      exact ⟨by simp, by omega⟩
    rw [if_neg hguard]
    dsimp only
    have hwl := waLoop_exact gt p ps pe rest cur 0 0 0 hmono hbound hv (Nat.zero_le _)
    rw [hwl.1, hwl.2]
    unfold twaSpec
    by_cases hz : specTotalDuration ps pe (cur :: rest) = 0
    · rw [if_pos hz, hz]
      simp
    · rw [if_neg hz]
      have : 0 < 0 + specTotalDuration ps pe (cur :: rest) := by omega
      rw [if_pos this]
      rw [Nat.zero_add, zero_add]

/-- The two-sample series of the claim:
`[(t=0, v=10), (t=3600, v=20)]`. -/
def twoSampleSeries : List MeasurementSample := [⟨0, [10]⟩, ⟨3600, [20]⟩]

/-- C1 witness: the theorem applied to the claim's two-sample series
aggregated over `[0, 7200)` yields TWA exactly 10 — only the leading
interval of 3600 s is weighted and the trailing sample contributes no
forward weight. -/
theorem batch_TWA_matches_spec_witness :
    (calculateWeightedAverage 1 120 twoSampleSeries 0 0 7200).twa = 10 := by
  have h := batch_TWA_matches_spec 1 120 twoSampleSeries 0 0 7200 (by decide)
    (by simp [twoSampleSeries, List.chain'_cons]) (by decide) (by decide)
  rw [h]
  have hT : specTotalDuration 0 7200 twoSampleSeries = 3600 := by decide
  unfold twaSpec
  rw [hT]
  rw [if_neg (by omega)]
  have hW : specWeightedSum 0 0 7200 twoSampleSeries
      = (10 : ℚ) * ((3600 : Nat) : ℚ) := by
    unfold specWeightedSum
    rw [show includedPairs 0 7200 twoSampleSeries
        = [(⟨0, [10]⟩, ⟨3600, [20]⟩)] from by decide]
    simp [twoSampleSeries]
  rw [hW]
  norm_num

/-! ### C8: constant series -/

lemma specW_const (p ps pe : Nat) (v : ℚ) :
    ∀ (l : List MeasurementSample), (∀ s ∈ l, s.values.getD p 0 = v) →
      specWeightedSum p ps pe l = v * (specTotalDuration ps pe l : ℚ) := by
  intro l
  induction l with
  | nil =>
    intro _
    rw [specW_nil, specT_nil]
    simp
  | cons a l ih =>
    intro hconst
    cases l with
    | nil =>
      rw [specW_single, specT_single]
      simp
    | cons b l2 =>
      have hconst' : ∀ s ∈ b :: l2, s.values.getD p 0 = v := fun s hs =>
        hconst s (List.mem_cons_of_mem a hs)
      have hav : a.values.getD p 0 = v := hconst a (by simp)
      by_cases hin : ps ≤ a.timestamp ∧ a.timestamp < pe
      · rw [specW_cons2_in hin, specT_cons2_in hin, ih hconst', hav]
        push_cast
        ring
      · rw [specW_cons2_skip hin, specT_cons2_skip hin, ih hconst']

/-- C8 (amended): for every chronologically ordered series (nondecreasing
32-bit timestamps) in which parameter `p` has the constant value `v` in
every sample, and every analysis window for which at least one adjacent
pair is included (`totalDuration > 0`), aggregating with zero gaps yields
a TWA of exactly `v` in exact arithmetic. -/
theorem constant_series_TWA (numParams gt : Nat)
    (samples : List MeasurementSample) (p ps pe : Nat) (v : ℚ)
    (hp : p < numParams)
    (hmono : List.Chain' (fun a b => a.timestamp ≤ b.timestamp) samples)
    (hbound : ∀ s ∈ samples, s.timestamp < W32)
    (hv : ∀ s ∈ samples, p < s.values.length)
    (hconst : ∀ s ∈ samples, s.values.getD p 0 = v)
    (_hgaps : (calculateWeightedAverage numParams gt samples p ps pe).gaps = 0)
    (hpos : specTotalDuration ps pe samples ≠ 0) :
    (calculateWeightedAverage numParams gt samples p ps pe).twa = v := by
  cases samples with
  | nil => exact absurd (specT_nil ps pe) hpos
  | cons cur rest =>
    unfold calculateWeightedAverage
    have hguard : ¬ (cur :: rest = [] ∨ numParams ≤ p) := by
      push_neg
      exact ⟨by simp, by omega⟩
    rw [if_neg hguard]
    dsimp only
    have hwl := waLoop_exact gt p ps pe rest cur 0 0 0 hmono hbound hv (Nat.zero_le _)
    rw [hwl.1, hwl.2]
    rw [if_pos (by omega)]
    rw [Nat.zero_add, zero_add, specW_const p ps pe v (cur :: rest) hconst]
    have hne : ((specTotalDuration ps pe (cur :: rest) : Nat) : ℚ) ≠ 0 :=
      Nat.cast_ne_zero.mpr hpos
    exact mul_div_cancel_right₀ v hne

/-- A two-sample constant series used to instantiate the amended C8. -/
def twoConstSamples : List MeasurementSample := [⟨100, [5]⟩, ⟨160, [5]⟩]

/-- C8 witness: the amended theorem applied to a concrete two-sample
constant-5 series with a 60 s spacing (gap threshold 120, so zero gaps)
over the window `[0, 200)`. -/
theorem constant_series_TWA_witness :
    (calculateWeightedAverage 1 120 twoConstSamples 0 0 200).twa = 5 := by
  apply constant_series_TWA 1 120 twoConstSamples 0 0 200 5 (by decide)
    (by simp [twoConstSamples, List.chain'_cons]) (by decide) (by decide)
  · intro s hs
    simp only [twoConstSamples, List.mem_cons, List.not_mem_nil, or_false] at hs
    rcases hs with h | h
    · rw [h]
      rfl
    · rw [h]
      rfl
  · decide
  · decide

/-- C8 counterexample: the claim as stated fails for a window that
includes no adjacent pair.  The single-sample series `[(t=100, v=5)]`
has constant value 5 and zero gaps over the window `[0, 200)`, yet its
TWA is 0, not 5 (the source returns 0 whenever `totalTime` is 0). -/
theorem constant_series_TWA_counterexample :
    (∀ s ∈ [(⟨100, [5]⟩ : MeasurementSample)], s.values.getD 0 0 = (5 : ℚ)) ∧
    (calculateWeightedAverage 1 120 [⟨100, [5]⟩] 0 0 200).gaps = 0 ∧
    (calculateWeightedAverage 1 120 [⟨100, [5]⟩] 0 0 200).twa ≠ 5 := by
  refine ⟨?_, ?_, ?_⟩
  · intro s hs
    simp only [List.mem_cons, List.not_mem_nil, or_false] at hs
    rw [hs]
    rfl
  · decide
  · have h0 : (calculateWeightedAverage 1 120 [⟨100, [5]⟩] 0 0 200).twa = 0 := by
      unfold calculateWeightedAverage
      rw [if_neg (by simp)]
      dsimp only
      rw [show waLoop 120 0 0 200 ⟨0, 0, 0⟩ [⟨100, [5]⟩] = ⟨0, 0, 0⟩ from rfl]
      rw [if_neg (lt_irrefl 0)]
    rw [h0]
    norm_num

/-! ### C10: out-of-order pairs and wrap-around durations -/

/-- C10: for an adjacent pair that is out of chronological order
(`next.timestamp < current.timestamp`) with `current` inside the window,
the duration used by the pair loop is the unsigned wrap-around value
`(next.timestamp - current.timestamp) mod 2^32`: the pair is not skipped,
it is counted as a gap exactly when the wrapped value exceeds the
threshold, and it contributes the wrapped duration's weight. -/
theorem out_of_order_pair_wraps (gt p ps pe : Nat) (acc : WAAcc)
    (cur nxt : MeasurementSample)
    (hc : cur.timestamp < W32) (hn : nxt.timestamp < W32)
    (_hoo : nxt.timestamp < cur.timestamp)
    (hin1 : ps ≤ cur.timestamp) (hin2 : cur.timestamp < pe)
    (hpv : p < cur.values.length) :
    usub nxt.timestamp cur.timestamp
        = (((nxt.timestamp : Int) - (cur.timestamp : Int)) % (W32 : Int)).toNat ∧
    waStep gt p ps pe acc cur nxt =
      { weightedSum := acc.weightedSum + cur.values.getD p 0 *
          ((((nxt.timestamp : Int) - (cur.timestamp : Int)) % (W32 : Int)).toNat : ℚ)
        totalTime := (acc.totalTime +
          (((nxt.timestamp : Int) - (cur.timestamp : Int)) % (W32 : Int)).toNat) % W32
        gaps := acc.gaps +
          if gt < (((nxt.timestamp : Int) - (cur.timestamp : Int)) % (W32 : Int)).toNat
          then 1 else 0 } := by
  have hd := usub_eq_int_emod hn hc
  refine ⟨hd, ?_⟩
  unfold waStep
  rw [if_neg (by omega)]
  dsimp only
  rw [hd]
  by_cases hg : gt < (((nxt.timestamp : Int) - (cur.timestamp : Int)) % (W32 : Int)).toNat
  · rw [if_pos hg, if_pos hpv, if_pos hg]
  · rw [if_neg hg, if_pos hpv, if_neg hg]
    simp

/-- C10 witness: the theorem applied at the concrete out-of-order pair
`current = (t=100, v=7)`, `next = (t=40, v=9)` inside the window
`[0, 200)`: the wrapped duration is `2^32 - 60`, which exceeds the
threshold 120 and is therefore counted as a gap. -/
theorem out_of_order_pair_wraps_witness :
    usub (40 : Nat) (100 : Nat)
        = ((((40 : Nat) : Int) - ((100 : Nat) : Int)) % (W32 : Int)).toNat ∧
    waStep 120 0 0 200 ⟨0, 0, 0⟩ ⟨100, [7]⟩ ⟨40, [9]⟩ =
      { weightedSum := (0 : ℚ) + (⟨100, [7]⟩ : MeasurementSample).values.getD 0 0 *
          (((((40 : Nat) : Int) - ((100 : Nat) : Int)) % (W32 : Int)).toNat : ℚ)
        totalTime := ((0 : Nat) +
          ((((40 : Nat) : Int) - ((100 : Nat) : Int)) % (W32 : Int)).toNat) % W32
        gaps := (0 : Nat) +
          if 120 < ((((40 : Nat) : Int) - ((100 : Nat) : Int)) % (W32 : Int)).toNat
          then 1 else 0 } :=
  out_of_order_pair_wraps 120 0 0 200 ⟨0, 0, 0⟩ ⟨100, [7]⟩ ⟨40, [9]⟩
    (by decide) (by decide) (by decide) (by decide) (by decide) (by decide)

/-! ### Aggregation over a parsed series (`ExportTWA::calculateFromCSV`,
lines after parsing) -/

/-- Gap threshold wired by the `ExportTWA` constructor:
`_gapThreshold = samplingInterval * 2`. -/
def gapThresholdOf (samplingInterval : Nat) : Nat := samplingInterval * 2

/-- One canonical pair-iteration pass counting the adjacent in-window
pairs whose (wrapping) duration exceeds the gap threshold. -/
def gapCount (gapThreshold ps pe : Nat) : List MeasurementSample → Nat
  | cur :: nxt :: rest =>
      (if (ps ≤ cur.timestamp ∧ cur.timestamp < pe)
          ∧ gapThreshold < usub nxt.timestamp cur.timestamp then 1 else 0)
        + gapCount gapThreshold ps pe (nxt :: rest)
  | _ => 0

lemma gapCount_nil (gt ps pe : Nat) : gapCount gt ps pe [] = 0 := rfl

lemma gapCount_single (gt ps pe : Nat) (a : MeasurementSample) :
    gapCount gt ps pe [a] = 0 := rfl

lemma waStep_gaps (gt p ps pe : Nat) (acc : WAAcc) (cur nxt : MeasurementSample) :
    (waStep gt p ps pe acc cur nxt).gaps
      = acc.gaps + (if (ps ≤ cur.timestamp ∧ cur.timestamp < pe)
          ∧ gt < usub nxt.timestamp cur.timestamp then 1 else 0) := by
  unfold waStep
  split
  next hskip =>
    rw [if_neg (by omega), Nat.add_zero]
  next hskip =>
    dsimp only
    have hin : ps ≤ cur.timestamp ∧ cur.timestamp < pe := by omega
    by_cases hg : gt < usub nxt.timestamp cur.timestamp
    · have hboth : (ps ≤ cur.timestamp ∧ cur.timestamp < pe)
          ∧ gt < usub nxt.timestamp cur.timestamp := ⟨hin, hg⟩
      rw [if_pos hboth]
      simp only [if_pos hg]
      split
      next => rfl
      next => rfl
    · have hnot : ¬ ((ps ≤ cur.timestamp ∧ cur.timestamp < pe)
          ∧ gt < usub nxt.timestamp cur.timestamp) := fun hc => hg hc.2
      rw [if_neg hnot, Nat.add_zero]
      simp only [if_neg hg]
      split
      next => rfl
      next => rfl

lemma waLoop_gaps (gt p ps pe : Nat) :
    ∀ (l : List MeasurementSample) (acc : WAAcc),
      (waLoop gt p ps pe acc l).gaps = acc.gaps + gapCount gt ps pe l := by
  intro l
  induction l with
  | nil =>
    intro acc
    rw [gapCount_nil]
    rfl
  | cons cur rest ih =>
    intro acc
    cases rest with
    | nil =>
      rw [gapCount_single]
      rfl
    | cons nxt rest2 =>
      show (waLoop gt p ps pe (waStep gt p ps pe acc cur nxt) (nxt :: rest2)).gaps = _
      rw [ih (waStep gt p ps pe acc cur nxt), waStep_gaps]
      show _ = acc.gaps + ((if (ps ≤ cur.timestamp ∧ cur.timestamp < pe)
          ∧ gt < usub nxt.timestamp cur.timestamp then 1 else 0)
            + gapCount gt ps pe (nxt :: rest2))
      omega

/-- The gap count delivered through the output parameter of
`calculateWeightedAverage` is the canonical pair-pass count, for any
in-range parameter index — gap detection never looks at the parameter. -/
lemma calculateWeightedAverage_gaps (numParams gt : Nat)
    (samples : List MeasurementSample) (p ps pe : Nat)
    (hne : samples ≠ []) (hp : p < numParams) :
    (calculateWeightedAverage numParams gt samples p ps pe).gaps
      = gapCount gt ps pe samples := by
  unfold calculateWeightedAverage
  rw [if_neg (by push_neg; exact ⟨hne, by omega⟩)]
  dsimp only
  rw [waLoop_gaps gt p ps pe samples ⟨0, 0, 0⟩]
  show 0 + gapCount gt ps pe samples = gapCount gt ps pe samples
  rw [Nat.zero_add]

/-- Ordered-map assignment `result.parameterTWAs[name] = value`
(`std::map::operator[]`: overwrite if present, insert otherwise). -/
def mapSet (k : List Char) (v : ℚ) : List (List Char × ℚ) → List (List Char × ℚ)
  | [] => [(k, v)]
  | (k1, v1) :: rest => if k1 = k then (k, v) :: rest else (k1, v1) :: mapSet k v rest

/-- The result record of `calculateFromCSV` (`TWAExportResult`), minus
the two `strftime`-formatted time strings, which no claim concerns. -/
structure TWAExportResult where
  parameterTWAs : List (List Char × ℚ)
  dataCoverageHours : ℚ
  oshaCompliant : Bool
  exceedsMaxDuration : Bool
  samplesAnalyzed : Nat
  dataGaps : Nat
deriving DecidableEq

/-- `TWAExportResult result = {}` — the value-initialised record. -/
def emptyResult : TWAExportResult :=
  { parameterTWAs := []
    dataCoverageHours := 0
    oshaCompliant := false
    exceedsMaxDuration := false
    samplesAnalyzed := 0
    dataGaps := 0 }

/-- Minimum observed timestamp (`minTimestamp` scan, seeded with
`samples[0].timestamp`). -/
def minTimestamp (samples : List MeasurementSample) : Nat :=
  samples.foldl (fun m s => if s.timestamp < m then s.timestamp else m)
    ((samples.headD ⟨0, []⟩).timestamp)

/-- Maximum observed timestamp (`maxTimestamp` scan). -/
def maxTimestamp (samples : List MeasurementSample) : Nat :=
  samples.foldl (fun m s => if m < s.timestamp then s.timestamp else m)
    ((samples.headD ⟨0, []⟩).timestamp)

/-- `periodStart = (exportStart == 0) ? minTimestamp : exportStart`. -/
def periodStartOf (samples : List MeasurementSample) (exportStart : Nat) : Nat :=
  if exportStart = 0 then minTimestamp samples else exportStart

/-- `periodEnd = (exportEnd == 0) ? maxTimestamp : exportEnd`. -/
def periodEndOf (samples : List MeasurementSample) (exportEnd : Nat) : Nat :=
  if exportEnd = 0 then maxTimestamp samples else exportEnd

/-- The per-parameter loop of `calculateFromCSV`: for each requested
parameter name (at its index) compute the weighted average, store it in
the result map, and add the per-parameter gap count into the running
`dataGaps`. -/
def paramLoop (numParams gapThreshold : Nat) (samples : List MeasurementSample)
    (ps pe : Nat) :
    List (List Char) → Nat → List (List Char × ℚ) → Nat → List (List Char × ℚ) × Nat
  | [], _, twas, gapsAcc => (twas, gapsAcc)
  | name :: rest, i, twas, gapsAcc =>
      let r := calculateWeightedAverage numParams gapThreshold samples i ps pe
      paramLoop numParams gapThreshold samples ps pe rest (i + 1)
        (mapSet name r.twa twas) (gapsAcc + r.gaps)

/-- `dataCoverageHours = (periodEnd - periodStart) / 3600.0f` (unsigned
subtraction, then float division). -/
def coverageOf (ps pe : Nat) : ℚ := ((usub pe ps : Nat) : ℚ) / 3600

/-- `oshaCompliant = coverage >= MIN_OSHA_HOURS && coverage <= 10.0f`. -/
def compliantOf (ps pe : Nat) : Bool :=
  decide (8 ≤ coverageOf ps pe ∧ coverageOf ps pe ≤ 10)

/-- `exceedsMaxDuration = coverage > 10.0f`. -/
def exceedsOf (ps pe : Nat) : Bool := decide (10 < coverageOf ps pe)

/-- The aggregation part of `ExportTWA::calculateFromCSV` operating on
the parsed sample series: empty input returns the zero record; otherwise
derive the period bounds, run the per-parameter loop, average the summed
gap counts over the parameter count (integer division, guarded on a
nonzero count), and classify coverage. -/
def aggregateSamples (params : List (List Char)) (gapThreshold : Nat)
    (samples : List MeasurementSample) (exportStart exportEnd : Nat) :
    TWAExportResult :=
  if samples = [] then emptyResult
  else
    let ps := periodStartOf samples exportStart
    let pe := periodEndOf samples exportEnd
    let pl := paramLoop params.length gapThreshold samples ps pe params 0 [] 0
    { parameterTWAs := pl.1
      dataCoverageHours := coverageOf ps pe
      oshaCompliant := compliantOf ps pe
      exceedsMaxDuration := exceedsOf ps pe
      samplesAnalyzed := samples.length
      dataGaps := if 0 < params.length then pl.2 / params.length else pl.2 }

lemma paramLoop_gaps (numParams gt : Nat) (samples : List MeasurementSample)
    (ps pe : Nat) (hne : samples ≠ []) :
    ∀ (rest : List (List Char)) (i : Nat) (twas : List (List Char × ℚ)) (gacc : Nat),
      i + rest.length ≤ numParams →
      (paramLoop numParams gt samples ps pe rest i twas gacc).2
        = gacc + rest.length * gapCount gt ps pe samples := by
  intro rest
  induction rest with
  | nil =>
    intro i twas gacc _
    simp [paramLoop]
  | cons name rest ih =>
    intro i twas gacc hlen
    show (paramLoop numParams gt samples ps pe rest (i + 1) _
        (gacc + (calculateWeightedAverage numParams gt samples i ps pe).gaps)).2 = _
    rw [ih (i + 1) _ _ (by simp at hlen ⊢; omega)]
    rw [calculateWeightedAverage_gaps numParams gt samples i ps pe hne
      (by simp at hlen; omega)]
    simp only [List.length_cons]
    ring

lemma aggregate_oshaCompliant (params : List (List Char)) (gt : Nat)
    (samples : List MeasurementSample) (es ee : Nat) (hne : samples ≠ []) :
    (aggregateSamples params gt samples es ee).oshaCompliant
      = compliantOf (periodStartOf samples es) (periodEndOf samples ee) := by
  unfold aggregateSamples
  rw [if_neg hne]

/-- C5: for every aggregation over a non-empty sample series whose derived
period satisfies `periodStart <= periodEnd < 2^32`, the coverage is
`(periodEnd - periodStart)/3600` hours, compliance holds iff the coverage
is within `[8, 10]` hours, and the maximum window is exceeded iff it is
above 10 hours. -/
theorem coverage_and_compliance (params : List (List Char)) (gt : Nat)
    (samples : List MeasurementSample) (es ee : Nat)
    (hne : samples ≠ [])
    (hle : periodStartOf samples es ≤ periodEndOf samples ee)
    (hlt : periodEndOf samples ee < W32) :
    (aggregateSamples params gt samples es ee).dataCoverageHours
        = ((periodEndOf samples ee - periodStartOf samples es : Nat) : ℚ) / 3600 ∧
    ((aggregateSamples params gt samples es ee).oshaCompliant = true ↔
      (8 ≤ ((periodEndOf samples ee - periodStartOf samples es : Nat) : ℚ) / 3600 ∧
       ((periodEndOf samples ee - periodStartOf samples es : Nat) : ℚ) / 3600 ≤ 10)) ∧
    ((aggregateSamples params gt samples es ee).exceedsMaxDuration = true ↔
      10 < ((periodEndOf samples ee - periodStartOf samples es : Nat) : ℚ) / 3600) := by
  unfold aggregateSamples
  rw [if_neg hne]
  dsimp only
  have hU : usub (periodEndOf samples ee) (periodStartOf samples es)
      = periodEndOf samples ee - periodStartOf samples es := usub_of_le hle hlt
  unfold compliantOf exceedsOf coverageOf
  rw [hU]
  refine ⟨rfl, ?_, ?_⟩
  · simp [decide_eq_true_eq]
  · simp [decide_eq_true_eq]

/-- A two-sample series spanning 39600 seconds (11 hours). -/
def elevenHourSamples : List MeasurementSample := [⟨100, [1]⟩, ⟨39700, [2]⟩]

/-- C5 witness: the theorem applied to the 11-hour series with default
period bounds: the coverage is 11 hours, so `exceedsMaxDuration` is true
and `oshaCompliant` is false. -/
theorem coverage_and_compliance_witness :
    (aggregateSamples [] 120 elevenHourSamples 0 0).exceedsMaxDuration = true ∧
    (aggregateSamples [] 120 elevenHourSamples 0 0).oshaCompliant = false := by
  have h := coverage_and_compliance [] 120 elevenHourSamples 0 0
    (by decide) (by decide) (by decide)
  have hps : periodStartOf elevenHourSamples 0 = 100 := by decide
  have hpe : periodEndOf elevenHourSamples 0 = 39700 := by decide
  constructor
  · apply h.2.2.mpr
    rw [hps, hpe]
    norm_num
  · have hc := h.2.1
    rw [hps, hpe] at hc
    have hnot : ¬ ((8 : ℚ) ≤ ((39700 - 100 : Nat) : ℚ) / 3600 ∧
        ((39700 - 100 : Nat) : ℚ) / 3600 ≤ 10) := by
      norm_num
    cases hb : (aggregateSamples [] 120 elevenHourSamples 0 0).oshaCompliant
    · rfl
    · exact absurd (hc.mp hb) hnot

/-- C6: for a non-empty parameter list and non-empty series, the reported
`dataGaps` — the sum of the per-parameter gap counts divided by the
parameter count — equals one canonical pair-iteration pass over the
series, independently of which or how many parameters are requested. -/
theorem gap_count_is_canonical (params : List (List Char)) (gt : Nat)
    (samples : List MeasurementSample) (es ee : Nat)
    (hparams : params ≠ []) (hsamples : samples ≠ []) :
    (aggregateSamples params gt samples es ee).dataGaps
      = gapCount gt (periodStartOf samples es) (periodEndOf samples ee) samples := by
  unfold aggregateSamples
  rw [if_neg hsamples]
  dsimp only
  rw [paramLoop_gaps params.length gt samples _ _ hsamples params 0 [] 0 (by simp)]
  have hlen : 0 < params.length := List.length_pos.mpr hparams
  rw [if_pos hlen, Nat.zero_add]
  exact Nat.mul_div_cancel_left _ hlen

/-- Timestamp of the i-th sample of the C6 example series: uniform 60 s
sampling with one artificial 500 s jump between samples 99 and 100. -/
def gsTime (i : Nat) : Nat := if i < 100 then 60 * i else 60 * i + 440

/-- The i-th sample of the C6 example series (constant value 5). -/
def gsSample (i : Nat) : MeasurementSample := ⟨gsTime i, [5]⟩

/-- An 8-hour-class series with 60 s sampling and one artificial 500 s
gap: 480 samples spanning 29180 s ≈ 8.1 h. -/
def gapSeries : List MeasurementSample := (List.range' 0 480).map gsSample

lemma gsTime_mono (i : Nat) : gsTime i ≤ gsTime (i + 1) := by
  unfold gsTime
  split
  · split
    · omega
    · omega
  · split
    · omega
    · omega

lemma gsTime_bound (i : Nat) (h : i ≤ 479) : gsTime i ≤ 29180 := by
  unfold gsTime
  split
  · omega
  · omega

/-- Counting over `range'` of a predicate that holds at exactly one index
of the range. -/
lemma countP_single_index (p : Nat → Bool) (k : Nat) :
    ∀ (n a : Nat), (∀ i, a ≤ i → i < a + n → (p i = true ↔ i = k)) →
      (List.range' a n).countP p = if a ≤ k ∧ k < a + n then 1 else 0 := by
  intro n
  induction n with
  | zero =>
    intro a _
    rw [if_neg (by omega)]
    rfl
  | succ n ih =>
    intro a hp
    rw [List.range'_succ, List.countP_cons]
    rw [ih (a + 1) (fun i h1 h2 => hp i (by omega) (by omega))]
    by_cases hak : a = k
    · have hpa : p a = true := (hp a le_rfl (by omega)).mpr hak
      subst hak
      rw [hpa, if_pos rfl, if_neg (by omega : ¬ (a + 1 ≤ a ∧ a < a + 1 + n)),
        if_pos (by omega : a ≤ a ∧ a < a + (n + 1))]
    · have hpa : p a = false := by
        cases hc : p a
        · rfl
        · exact absurd ((hp a le_rfl (by omega)).mp hc) hak
      rw [hpa, if_neg Bool.false_ne_true, Nat.add_zero]
      by_cases hk : a + 1 ≤ k ∧ k < a + 1 + n
      · rw [if_pos hk, if_pos (by omega : a ≤ k ∧ k < a + (n + 1))]
      · rw [if_neg hk, if_neg (by omega : ¬ (a ≤ k ∧ k < a + (n + 1)))]

/-- The canonical gap pass over an indexed series counts the indices
whose pair satisfies the window-and-threshold condition. -/
lemma gapCount_range'_map (gt ps pe : Nat) (g : Nat → MeasurementSample) :
    ∀ (k a : Nat),
      gapCount gt ps pe ((List.range' a (k + 1)).map g)
        = (List.range' a k).countP fun i =>
            decide ((ps ≤ (g i).timestamp ∧ (g i).timestamp < pe)
              ∧ gt < usub (g (i + 1)).timestamp (g i).timestamp) := by
  intro k
  induction k with
  | zero =>
    intro a
    rw [List.range'_succ]
    rfl
  | succ k ih =>
    intro a
    rw [List.range'_succ, List.range'_succ, List.map_cons, List.map_cons]
    show (if (ps ≤ (g a).timestamp ∧ (g a).timestamp < pe)
        ∧ gt < usub (g (a + 1)).timestamp (g a).timestamp then 1 else 0)
      + gapCount gt ps pe (g (a + 1) :: (List.range' (a + 1 + 1) k).map g) = _
    rw [← List.map_cons, ← List.range'_succ]
    rw [ih (a + 1)]
    rw [List.range'_succ, List.countP_cons]
    simp only [decide_eq_true_eq]
    split
    next =>
      omega
    next =>
      omega

lemma gapSeries_gapCount : gapCount 120 0 29180 gapSeries = 1 := by
  unfold gapSeries
  rw [show (480 : Nat) = 479 + 1 from rfl]
  rw [gapCount_range'_map 120 0 29180 gsSample 479 0]
  rw [countP_single_index _ 99 479 0 ?heq]
  · rw [if_pos (by omega)]
  case heq =>
    intro i _ hlt
    simp only [Nat.zero_add] at hlt
    simp only [decide_eq_true_eq]
    have hts : (gsSample i).timestamp = gsTime i := rfl
    have hts1 : (gsSample (i + 1)).timestamp = gsTime (i + 1) := rfl
    rw [hts, hts1]
    have hus : usub (gsTime (i + 1)) (gsTime i) = gsTime (i + 1) - gsTime i :=
      usub_of_le (gsTime_mono i)
        (lt_of_le_of_lt (gsTime_bound (i + 1) (by omega)) (by unfold W32; omega))
    rw [hus]
    unfold gsTime
    constructor
    · intro hc
      by_cases h1 : i < 100
      · by_cases h2 : i + 1 < 100
        · simp only [h1, if_pos, h2] at hc
          omega
        · omega
      · by_cases h2 : i + 1 < 100
        · omega
        · simp only [h1, h2, if_neg, if_false] at hc
          omega
    · intro hk
      subst hk
      norm_num

lemma foldlMin_zero :
    ∀ (l : List MeasurementSample),
      l.foldl (fun m s => if s.timestamp < m then s.timestamp else m) 0 = 0 := by
  intro l
  induction l with
  | nil => rfl
  | cons a l ih =>
    show l.foldl _ (if a.timestamp < 0 then a.timestamp else 0) = 0
    rw [if_neg (Nat.not_lt_zero _)]
    exact ih

lemma foldlMax_mono (g : Nat → MeasurementSample)
    (hmono : ∀ i, (g i).timestamp ≤ (g (i + 1)).timestamp) :
    ∀ (n a M : Nat), M ≤ (g a).timestamp →
      ((List.range' a (n + 1)).map g).foldl
          (fun m s => if m < s.timestamp then s.timestamp else m) M
        = (g (a + n)).timestamp := by
  intro n
  induction n with
  | zero =>
    intro a M hM
    show (if M < (g a).timestamp then (g a).timestamp else M) = (g (a + 0)).timestamp
    rw [Nat.add_zero]
    by_cases hx : M < (g a).timestamp
    · rw [if_pos hx]
    · rw [if_neg hx]
      omega
  | succ n ih =>
    intro a M hM
    rw [List.range'_succ, List.map_cons]
    show ((List.range' (a + 1) (n + 1)).map g).foldl _
        (if M < (g a).timestamp then (g a).timestamp else M) = _
    have hstep : (if M < (g a).timestamp then (g a).timestamp else M)
        = (g a).timestamp := by
      by_cases hx : M < (g a).timestamp
      · rw [if_pos hx]
      · rw [if_neg hx]
        omega
    rw [hstep, ih (a + 1) (g a).timestamp (hmono a)]
    rw [show a + 1 + n = a + (n + 1) from by omega]

lemma minTimestamp_gapSeries : minTimestamp gapSeries = 0 := by
  unfold minTimestamp
  rw [show (gapSeries.headD ⟨0, []⟩).timestamp = 0 from rfl]
  exact foldlMin_zero gapSeries

lemma maxTimestamp_gapSeries : maxTimestamp gapSeries = 29180 := by
  unfold maxTimestamp
  rw [show (gapSeries.headD ⟨0, []⟩).timestamp = 0 from rfl]
  unfold gapSeries
  rw [show (480 : Nat) = 479 + 1 from rfl]
  rw [foldlMax_mono gsSample gsTime_mono 479 0 0 (Nat.zero_le _)]
  rfl

/-- C6 witness: the theorem applied to the 480-sample 60 s series with
one 500 s gap and the single parameter "pm25" at the constructor's
threshold `2 × 60`: the reported gap count is 1 and the aggregation is
OSHA-compliant. -/
theorem gap_count_is_canonical_witness :
    (aggregateSamples ["pm25".toList] (gapThresholdOf 60) gapSeries 0 0).dataGaps = 1 ∧
    (aggregateSamples ["pm25".toList] (gapThresholdOf 60) gapSeries 0 0).oshaCompliant = true := by
  have hne : gapSeries ≠ [] := by
    unfold gapSeries
    rw [show (480 : Nat) = 479 + 1 from rfl, List.range'_succ]
    simp
  have hps : periodStartOf gapSeries 0 = 0 := by
    unfold periodStartOf
    rw [if_pos rfl]
    exact minTimestamp_gapSeries
  have hpe : periodEndOf gapSeries 0 = 29180 := by
    unfold periodEndOf
    rw [if_pos rfl]
    exact maxTimestamp_gapSeries
  constructor
  · rw [gap_count_is_canonical ["pm25".toList] (gapThresholdOf 60) gapSeries 0 0
      (by simp) hne]
    rw [hps, hpe]
    exact gapSeries_gapCount
  · rw [aggregate_oshaCompliant ["pm25".toList] (gapThresholdOf 60) gapSeries 0 0 hne]
    rw [hps, hpe]
    unfold compliantOf coverageOf
    rw [show usub 29180 0 = 29180 from by decide]
    simp only [decide_eq_true_eq]
    norm_num

/-! ## Series Parser (`ExportTWA::parseDataPoints`) -/

/-- Character list of a string literal. -/
def strL (s : String) : List Char := s.data

/-- The required header column name. -/
def tsName : List Char := strL "timestamp"

/-- Whitespace predicate of `String::trim` (C `isspace`). -/
def isSpaceCh (c : Char) : Bool :=
  c = ' ' || c = '\t' || c = '\n' || c = '\r' || c = '\x0b' || c = '\x0c'

/-- `String::trim`: strip leading and trailing whitespace. -/
def trimChars (l : List Char) : List Char :=
  ((l.dropWhile isSpaceCh).reverse.dropWhile isSpaceCh).reverse

/-- Split a line on commas, keeping empty fields (the `i <= line.length()`
field loop of the source). -/
def splitFields : List Char → List (List Char)
  | [] => [[]]
  | c :: cs =>
      if c = ',' then [] :: splitFields cs
      else
        match splitFields cs with
        | f :: fs => (c :: f) :: fs
        | [] => [[c]]

/-- Value of the leading decimal-digit prefix (accumulator form). -/
def digitsPrefixVal : List Char → Nat → Nat
  | c :: cs, acc =>
      if c.isDigit then digitsPrefixVal cs (acc * 10 + (c.toNat - 48)) else acc
  | [], acc => acc

/-- The leading decimal-digit prefix itself. -/
def digitsPrefix (l : List Char) : List Char := l.takeWhile fun c => c.isDigit

/-- The remainder after the leading decimal-digit prefix. -/
def afterDigits (l : List Char) : List Char := l.dropWhile fun c => c.isDigit

/-- `String::toInt` (C `atol`): optional sign, then the decimal-digit
prefix; 0 when no digits follow. -/
def toIntVal : List Char → Int
  | '-' :: cs => -(digitsPrefixVal cs 0 : Int)
  | '+' :: cs => (digitsPrefixVal cs 0 : Int)
  | l => (digitsPrefixVal l 0 : Int)

/-- Magnitude part of `atof`: integer digits, optional fraction, optional
exponent, as an exact rational. -/
def toFloatMag (l : List Char) : ℚ :=
  let ip : ℚ := (digitsPrefixVal l 0 : ℚ)
  let l2 := afterDigits l
  let fr : ℚ :=
    match l2 with
    | '.' :: cs => (digitsPrefixVal cs 0 : ℚ) / (10 : ℚ) ^ (digitsPrefix cs).length
    | _ => 0
  let l3 :=
    match l2 with
    | '.' :: cs => afterDigits cs
    | _ => l2
  let mant := ip + fr
  match l3 with
  | e :: cs =>
      if e = 'e' ∨ e = 'E' then
        match cs with
        | '-' :: ds => mant / (10 : ℚ) ^ digitsPrefixVal ds 0
        | '+' :: ds => mant * (10 : ℚ) ^ digitsPrefixVal ds 0
        | ds => mant * (10 : ℚ) ^ digitsPrefixVal ds 0
      else mant
  | [] => mant

/-- `String::toFloat` (C `atof`): optional sign then the magnitude. -/
def toFloatVal : List Char → ℚ
  | '-' :: cs => -(toFloatMag cs)
  | '+' :: cs => toFloatMag cs
  | l => toFloatMag l

/-- Assoc-map assignment modelling `columnIndex[paramName] = colIdx`. -/
def mapSetNat (k : List Char) (v : Nat) : List (List Char × Nat) → List (List Char × Nat)
  | [] => [(k, v)]
  | (k1, v1) :: rest => if k1 = k then (k, v) :: rest else (k1, v1) :: mapSetNat k v rest

/-- Assoc-map lookup (`columnIndex.find`). -/
def assocLookup (k : List Char) : List (List Char × Nat) → Option Nat
  | [] => none
  | (k1, v1) :: rest => if k1 = k then some v1 else assocLookup k rest

/-- The column information extracted from the header row. -/
structure HeaderInfo where
  tsCol : Nat
  colMap : List (List Char × Nat)
deriving DecidableEq

/-- The header field loop: for each (trimmed) field at its column index,
record the last column named `timestamp` and map each requested parameter
name to its (last) column. -/
def headerFold (params : List (List Char)) :
    List (List Char) → Nat → Option Nat → List (List Char × Nat) →
      Option Nat × List (List Char × Nat)
  | [], _, ts, cm => (ts, cm)
  | f :: fs, idx, ts, cm =>
      let fn := trimChars f
      let ts1 := if fn = tsName then some idx else ts
      let cm1 := if fn ∈ params then mapSetNat fn idx cm else cm
      headerFold params fs (idx + 1) ts1 cm1

/-- Header parsing and validation: `none` when the `timestamp` column or
any requested parameter column is missing. -/
def parseHeader (params : List (List Char)) (line : List Char) : Option HeaderInfo :=
  let r := headerFold params (splitFields line) 0 none []
  match r.1 with
  | none => none
  | some t =>
      if params.all (fun p => (assocLookup p r.2).isSome) then some ⟨t, r.2⟩ else none

/-- The data-row field loop: the timestamp column is parsed with `toInt`
and stored into the `unsigned long` timestamp (wrapping at 2^32); each
column mapped from a parameter sets the value at the FIRST parameter
index whose mapped column matches (the `break` in the source), leaving
later duplicates at their zero default.  The timestamp starts at 0
standing in for the source's value-initialised-by-nothing local (a row
never touching the timestamp column is rejected below). -/
def rowFold (params : List (List Char)) (h : HeaderInfo) :
    List (List Char) → Nat → Nat → List ℚ → Nat × List ℚ
  | [], _, ts, vals => (ts, vals)
  | f :: fs, idx, ts, vals =>
      let fd := trimChars f
      let ts1 := if idx = h.tsCol then ((toIntVal fd) % (W32 : Int)).toNat else ts
      let vals1 :=
        match (List.range params.length).find?
            (fun p => assocLookup (params.getD p []) h.colMap == some idx) with
        | some p => vals.set p (toFloatVal fd)
        | none => vals
      rowFold params h fs (idx + 1) ts1 vals1

/-- Parse one data row into a sample (`values` pre-sized with zeros). -/
def parseRow (params : List (List Char)) (h : HeaderInfo) (line : List Char) :
    MeasurementSample :=
  let r := rowFold params h (splitFields line) 0 0 (List.replicate params.length 0)
  ⟨r.1, r.2⟩

/-- Parser state: `failed` models the early `return false` on header
validation (at which point no sample has been collected), `scanning`
carries the optional header info and the samples so far. -/
inductive PState where
  | failed
  | scanning (header : Option HeaderInfo) (samples : List MeasurementSample)
deriving DecidableEq

/-- Handling of one `'\n'`-terminated line: trim; skip blank and
`#`-comment lines; the first remaining line is the header (failure stops
the parse); afterwards each line is a data row, accepted only when its
parsed timestamp is strictly positive (`validRow` in the source is never
set false). -/
def procLine (params : List (List Char)) (st : PState) (line : List Char) : PState :=
  match st with
  | .failed => .failed
  | .scanning none samples =>
      let t := trimChars line
      if t = [] ∨ t.head? = some '#' then st
      else
        match parseHeader params t with
        | none => .failed
        | some h => .scanning (some h) samples
  | .scanning (some h) samples =>
      let t := trimChars line
      if t = [] ∨ t.head? = some '#' then st
      else
        let smp := parseRow params h t
        if 0 < smp.timestamp then .scanning (some h) (samples ++ [smp])
        else .scanning (some h) samples

/-- The line scanner of `parseDataPoints`: only segments terminated by
`'\n'` are dispatched; characters after the last newline are never
examined (`lineEnd == -1` ends the loop). -/
def scanLines (params : List (List Char)) : PState → List Char → List Char → PState
  | st, _, [] => st
  | st, cur, c :: cs =>
      if c = '\n' then scanLines params (procLine params st cur.reverse) [] cs
      else scanLines params st (c :: cur) cs

/-- `ExportTWA::parseDataPoints`: returns the success flag
(`!samples.empty()`, and `false` on a header-validation failure) together
with the collected samples. -/
def parseDataPoints (params : List (List Char)) (csvData : List Char) :
    Bool × List MeasurementSample :=
  match scanLines params (.scanning none []) [] csvData with
  | .failed => (false, [])
  | .scanning _ samples => (!samples.isEmpty, samples)

lemma scanLines_noNewline (params : List (List Char)) :
    ∀ (l : List Char) (st : PState) (cur : List Char),
      (∀ c ∈ l, c ≠ '\n') → scanLines params st cur l = st := by
  intro l
  induction l with
  | nil => intro st cur _; rfl
  | cons c cs ih =>
    intro st cur hno
    have hc : c ≠ '\n' := hno c (by simp)
    show (if c = '\n' then _ else scanLines params st (c :: cur) cs) = st
    rw [if_neg hc]
    exact ih st (c :: cur) (fun d hd => hno d (by simp [hd]))

lemma scanLines_append_noNewline (params : List (List Char)) (post : List Char)
    (hpost : ∀ c ∈ post, c ≠ '\n') :
    ∀ (xs : List Char) (st : PState) (cur : List Char),
      scanLines params st cur (xs ++ post) = scanLines params st cur xs := by
  intro xs
  induction xs with
  | nil =>
    intro st cur
    rw [List.nil_append]
    exact scanLines_noNewline params post st cur hpost
  | cons c cs ih =>
    intro st cur
    by_cases hc : c = '\n'
    · subst hc
      show scanLines params (procLine params st cur.reverse) [] (cs ++ post)
          = scanLines params (procLine params st cur.reverse) [] cs
      exact ih _ []
    · show (if c = '\n' then _ else scanLines params st (c :: cur) (cs ++ post))
          = (if c = '\n' then _ else scanLines params st (c :: cur) cs)
      rw [if_neg hc, if_neg hc]
      exact ih st (c :: cur)

/-- C9: characters after the last newline are never examined — appending
any newline-free tail to an input leaves the parse result unchanged; in
particular a final well-formed data row lacking its terminating newline
contributes no sample, and a header-only input without a trailing newline
parses like the empty input. -/
theorem parser_ignores_unterminated_tail (params : List (List Char))
    (pre post : List Char) (hpost : ∀ c ∈ post, c ≠ '\n') :
    parseDataPoints params (pre ++ post) = parseDataPoints params pre := by
  unfold parseDataPoints
  rw [scanLines_append_noNewline params post hpost pre _ []]

/-- C9 witness: the theorem applied to the header `"timestamp,pm25\n"`
with the unterminated final row `"100,5"` (no sample results: the outcome
equals the header-only parse, which is `(false, [])`), and to a
header-only input without its newline (parsed like the empty input). -/
theorem parser_ignores_unterminated_tail_witness :
    parseDataPoints [strL "pm25"] (strL "timestamp,pm25\n" ++ strL "100,5")
        = parseDataPoints [strL "pm25"] (strL "timestamp,pm25\n") ∧
    parseDataPoints [strL "pm25"] (strL "timestamp,pm25\n") = (false, []) ∧
    parseDataPoints [strL "pm25"] (([] : List Char) ++ strL "timestamp,pm25")
        = parseDataPoints [strL "pm25"] ([] : List Char) := by
  refine ⟨?_, ?_, ?_⟩
  · exact parser_ignores_unterminated_tail [strL "pm25"]
      (strL "timestamp,pm25\n") (strL "100,5") (by decide)
  · decide
  · exact parser_ignores_unterminated_tail [strL "pm25"]
      [] (strL "timestamp,pm25") (by decide)

/-! ### C7: header validation failure -/

/-- A sequence of `'\n'`-terminated lines. -/
def joinNL (ls : List (List Char)) : List Char :=
  (ls.map fun l => l ++ ['\n']).flatten

lemma scanLines_failed (params : List (List Char)) :
    ∀ (l : List Char) (cur : List Char),
      scanLines params PState.failed cur l = PState.failed := by
  intro l
  induction l with
  | nil => intro cur; rfl
  | cons c cs ih =>
    intro cur
    by_cases hc : c = '\n'
    · subst hc
      show scanLines params (procLine params PState.failed cur.reverse) [] cs = _
      show scanLines params PState.failed [] cs = _
      exact ih []
    · show (if c = '\n' then _ else scanLines params PState.failed (c :: cur) cs) = _
      rw [if_neg hc]
      exact ih (c :: cur)

lemma scanLines_through_line (params : List (List Char)) :
    ∀ (l : List Char) (st : PState) (cur rest : List Char),
      (∀ c ∈ l, c ≠ '\n') →
      scanLines params st cur (l ++ '\n' :: rest)
        = scanLines params (procLine params st (cur.reverse ++ l)) [] rest := by
  intro l
  induction l with
  | nil =>
    intro st cur rest _
    show scanLines params (procLine params st cur.reverse) [] rest = _
    rw [List.append_nil]
  | cons c cs ih =>
    intro st cur rest hno
    have hc : c ≠ '\n' := hno c (by simp)
    show (if c = '\n' then _
        else scanLines params st (c :: cur) (cs ++ '\n' :: rest)) = _
    rw [if_neg hc]
    rw [ih st (c :: cur) rest (fun d hd => hno d (by simp [hd]))]
    congr 2
    rw [List.reverse_cons, List.append_assoc, List.singleton_append]

lemma procLine_skip (params : List (List Char)) (st : PState) (l : List Char)
    (hl : trimChars l = [] ∨ (trimChars l).head? = some '#') :
    procLine params st l = st := by
  cases st with
  | failed => rfl
  | scanning h samples =>
    cases h with
    | none =>
      show (if trimChars l = [] ∨ (trimChars l).head? = some '#' then _ else _) = _
      rw [if_pos hl]
    | some hi =>
      show (if trimChars l = [] ∨ (trimChars l).head? = some '#' then _ else _) = _
      rw [if_pos hl]

lemma scanLines_skipPrefix (params : List (List Char)) :
    ∀ (pre : List (List Char)) (st : PState),
      (∀ l ∈ pre, (∀ c ∈ l, c ≠ '\n')
        ∧ (trimChars l = [] ∨ (trimChars l).head? = some '#')) →
      ∀ (rest : List Char),
        scanLines params st [] (joinNL pre ++ rest) = scanLines params st [] rest := by
  intro pre
  induction pre with
  | nil =>
    intro st _ rest
    rfl
  | cons l pre ih =>
    intro st hpre rest
    have hl := hpre l (by simp)
    have hjoin : joinNL (l :: pre) ++ rest = l ++ '\n' :: (joinNL pre ++ rest) := by
      show ((l ++ ['\n']) ++ joinNL pre) ++ rest = _
      rw [List.append_assoc, List.append_assoc, List.singleton_append]
    rw [hjoin]
    rw [scanLines_through_line params l st [] (joinNL pre ++ rest) hl.1]
    rw [show (([] : List Char).reverse ++ l) = l from rfl]
    rw [procLine_skip params st l hl.2]
    exact ih st (fun m hm => hpre m (by simp [hm])) rest

/-- C7 (amended): an input whose header (first non-blank, non-comment,
newline-terminated line) fails column validation — no `timestamp` column
or a missing requested parameter column — parses to zero samples with no
partial data and the failure signal `(false, [])`; this is the same
result value that any parse collecting zero samples (e.g. a well-formed
header followed by zero accepted data rows) produces, so the signal is
not distinguishable from the "no data yet" outcome. -/
theorem missing_column_parse_failure (params : List (List Char))
    (pre : List (List Char)) (line rest : List Char)
    (hpre : ∀ l ∈ pre, (∀ c ∈ l, c ≠ '\n')
      ∧ (trimChars l = [] ∨ (trimChars l).head? = some '#'))
    (hline : ∀ c ∈ line, c ≠ '\n')
    (hdata : ¬ (trimChars line = [] ∨ (trimChars line).head? = some '#'))
    (hfail : parseHeader params (trimChars line) = none) :
    parseDataPoints params (joinNL pre ++ (line ++ '\n' :: rest)) = (false, []) ∧
    ∀ (params2 : List (List Char)) (text : List Char) (h : Option HeaderInfo),
      scanLines params2 (PState.scanning none []) [] text = PState.scanning h [] →
      parseDataPoints params2 text = (false, []) := by
  constructor
  · unfold parseDataPoints
    rw [scanLines_skipPrefix params pre _ hpre _]
    rw [scanLines_through_line params line _ [] rest hline]
    have hproc : procLine params (PState.scanning none [])
        (([] : List Char).reverse ++ line) = PState.failed := by
      show (if trimChars line = [] ∨ (trimChars line).head? = some '#'
          then PState.scanning none []
          else match parseHeader params (trimChars line) with
            | none => PState.failed
            | some h => PState.scanning (some h) []) = PState.failed
      rw [if_neg hdata, hfail]
    rw [hproc]
    rw [scanLines_failed params rest []]
  · intro params2 text h hscan
    unfold parseDataPoints
    rw [hscan]
    rfl

/-- C7 witness: the theorem applied at the concrete header
`"time,pm25"` lacking the `timestamp` column (with parameter `pm25`),
and, for the second part, at the well-formed header
`"timestamp,pm25\n"` followed by no data rows. -/
theorem missing_column_parse_failure_witness :
    parseDataPoints [strL "pm25"]
        (joinNL [] ++ (strL "time,pm25" ++ '\n' :: [])) = (false, []) ∧
    parseDataPoints [strL "pm25"] (strL "timestamp,pm25\n") = (false, []) := by
  have h := missing_column_parse_failure [strL "pm25"] [] (strL "time,pm25") []
    (by simp) (by decide) (by decide) (by decide)
  exact ⟨h.1, h.2 [strL "pm25"] (strL "timestamp,pm25\n")
    (some ⟨0, [(strL "pm25", 1)]⟩) (by decide)⟩

/-- C7 counterexample: the failure signal is NOT distinguishable from the
"no data yet" outcome — a header missing the `timestamp` column and a
well-formed header with zero data rows produce the identical result
`(false, [])` (the source returns `!samples.empty()` in both cases). -/
theorem parse_failure_signal_counterexample :
    parseDataPoints [strL "pm25"] (strL "time,pm25\n")
        = parseDataPoints [strL "pm25"] (strL "timestamp,pm25\n") ∧
    parseDataPoints [strL "pm25"] (strL "time,pm25\n") = (false, []) := by
  constructor
  · decide
  · decide

end TWACore
